import Mathlib

/-!
Verification of the conversation lifecycle and history-management engine of the
agentic-chatbot repository, as a shallow embedding in Lean 4.

Conventions used throughout the embedding:
* Python datetimes appear in the code only through their ISO-8601 text
  (`.isoformat()`); the model therefore carries timestamps as `String` values,
  and every operation that calls `datetime.now()` takes the current ISO text
  as an explicit `now : String` argument.
* Python `dict`s are modelled as insertion-ordered association lists
  (`List (key × value)`); updating an existing key keeps its position and a
  new key is appended at the end, which is exactly CPython dict behaviour.
* The opaque pagination token is the string `"index:N"` in the source and is
  decoded back to `N` with `int(...)` before use; the model carries the decoded
  start index directly as `Option Nat` (`none` plays the `null` token).
* Exceptions raised by the external agent frameworks are modelled by passing
  the framework call's outcome as an `Except String` argument; a function that
  has no `try/except` around such a call propagates the `Except.error`.
-/

/-- The type discriminant and payload of a media or graph attachment.  Claims
only move attachments around whole, so their rendering fields are opaque. -/
structure Attachment where
  tag : String
  payload : String
deriving DecidableEq, Repr

/-- A knowledge item citation (`core.common.Citation`). -/
structure Citation where
  item_id : String
  source : String
  metadata : List (String × String)
deriving DecidableEq, Repr

/-- One record of the tool-usage log accumulated during a `process` call. -/
structure ToolUsage where
  tool_name : String
  args : List String
  kwargs : List (String × String)
  result : String
  start_time : String
  duration : Nat
deriving DecidableEq, Repr

/-- A value of the open `metadata` mapping of a `Message`: either plain text
(such as the `error` field) or the tool-usage log. -/
inductive MetaValue where
  | str (s : String)
  | toolUsage (records : List ToolUsage)
deriving DecidableEq, Repr

/-- The canonical `core.common.Message` pydantic model. -/
structure Message where
  message_id : String
  role : String
  content : String
  created_at : String
  citations : List Citation
  metadata : List (String × MetaValue)
  attachments : List Attachment
deriving DecidableEq, Repr

/-- An entry of the semantic-kernel `ChatHistory`: the `add_*_message` helpers
record just a role and a content. -/
structure ChatMsg where
  role : String
  content : String
deriving DecidableEq, Repr

/-- A loose message record handed to `update_chat_history` (either a canonical
`Message` or a raw mapping); `_get_message_prop` reads `role`, `content` and
`created_at` from it, with `""` for a missing key. -/
structure MsgRecord where
  role : String
  content : String
  created_at : String
deriving DecidableEq, Repr

/-- Lookup in an insertion-ordered association list (Python `d.get(k)` /
`d[k]`). -/
def alGet {α : Type} (l : List (String × α)) (k : String) : Option α :=
  match l with
  | [] => none
  | (k₂, v) :: rest => if k₂ == k then some v else alGet rest k

/-- Update in an insertion-ordered association list (Python `d[k] = v`): an
existing key keeps its position, a new key is appended at the end. -/
def alSet {α : Type} (l : List (String × α)) (k : String) (v : α) : List (String × α) :=
  match l with
  | [] => [(k, v)]
  | (k₂, v₂) :: rest => if k₂ == k then (k, v) :: rest else (k₂, v₂) :: alSet rest k v

/-- Deletion from an association list (Python `del d[k]`). -/
def alErase {α : Type} (l : List (String × α)) (k : String) : List (String × α) :=
  l.filter (fun p => !(p.1 == k))

/-- Number of system messages in a list of chat-history entries, given the
role projection. -/
def countSystem {α : Type} (role : α → String) (l : List α) : Nat :=
  (l.filter (fun m => role m == "system")).length

/-- The body shared by both backends' history pruners, §4.2 steps (2)-(5):
partition into system messages and the rest, keep the most recent
`max(0, bound - count(system))` non-system messages (Python tail slice
`non_system_messages[-remaining_slots:]` guarded by `remaining_slots > 0`),
and reconstruct as system messages followed by the kept recent messages. -/
def pruneKeep {α : Type} (role : α → String) (bound : Nat) (hist : List α) : List α :=
  let system_messages := hist.filter (fun m => role m == "system")
  let remaining_slots := bound - system_messages.length
  let non_system_messages := hist.filter (fun m => !(role m == "system"))
  let recent_messages :=
    if 0 < remaining_slots then
      non_system_messages.drop (non_system_messages.length - remaining_slots)
    else []
  system_messages ++ recent_messages

namespace LlamaIndexAgent

/-- Model of `AbstractLlamaIndexAgent._prune_chat_history`: prune only when
`len(self._chat_history) >= self._max_history_length`; the kept entries are
the dicts themselves, reassembled as `system_messages + recent_messages`. -/
def prune_chat_history (max_history_length : Nat) (chat_history : List MsgRecord) :
    List MsgRecord :=
  if max_history_length ≤ chat_history.length then
    pruneKeep MsgRecord.role max_history_length chat_history
  else chat_history

end LlamaIndexAgent

namespace SemanticKernelAgent

/-- The reconstruction loop of `AbstractSemanticKernelAgent._prune_chat_history`:
a fresh `ChatHistory` re-adds each kept message through
`add_system_message` / `add_user_message` / `add_assistant_message`; a kept
message with any other role is silently dropped by the loop. -/
def rebuild_chat (msgs : List ChatMsg) : List ChatMsg :=
  msgs.filterMap (fun m =>
    if m.role == "system" then some { role := "system", content := m.content }
    else if m.role == "user" then some { role := "user", content := m.content }
    else if m.role == "assistant" then some { role := "assistant", content := m.content }
    else none)

/-- Model of `AbstractSemanticKernelAgent._prune_chat_history`: same partition-and-keep
body as the LlamaIndex pruner, followed by the `ChatHistory` reconstruction. -/
def prune_chat_history (max_history_length : Nat) (chat : List ChatMsg) : List ChatMsg :=
  if max_history_length ≤ chat.length then
    rebuild_chat (pruneKeep ChatMsg.role max_history_length chat)
  else chat

/-- The role of a rebuilt chat message: the reconstruction keeps exactly the
messages whose role is system, user or assistant, unchanged. -/
def knownRole (m : ChatMsg) : Bool :=
  m.role == "system" || m.role == "user" || m.role == "assistant"

end SemanticKernelAgent


/-- A concrete three-entry loose-record history used to instantiate theorems. -/
def exLI3 : List MsgRecord :=
  [{ role := "user", content := "a", created_at := "1" },
   { role := "system", content := "s", created_at := "0" },
   { role := "assistant", content := "b", created_at := "2" }]

/-- A concrete three-entry semantic-kernel chat history used to instantiate
theorems. -/
def exSK3 : List ChatMsg :=
  [{ role := "user", content := "a" },
   { role := "system", content := "s" },
   { role := "assistant", content := "b" }]


/-- A named callable capability (`core.tools.Tool`); the wrapped Python
callable itself is identified opaquely by the `function` field. -/
structure Tool where
  name : String
  description : String
  function : String
deriving DecidableEq, Repr

namespace AbstractAgent

/-- Model of `AbstractAgent.add_tool`: registers the tool in the `_tools` mapping
unless a tool with the same name is present, in which case a `ValueError` is
raised and the mapping is untouched.  The returned pair is the toolkit after
the call and the raised error message, if any. -/
def add_tool (tools : List (String × Tool)) (tool : Tool) :
    List (String × Tool) × Option String :=
  if (alGet tools tool.name).isNone then
    (alSet tools tool.name tool, none)
  else
    (tools, some ("Tool " ++ tool.name ++ " already exists in agent"))

end AbstractAgent

namespace SemanticKernelAgent

/-- Model of `AbstractSemanticKernelAgent.update_chat_history`: clears the current
chat, partitions the incoming records and keeps the most recent
`max(0, max_history_length - len(system_messages))` non-system records (the
same partition-and-keep body as the pruner, hence `pruneKeep`), sorts the
combined list by `created_at` (Python `list.sort` is stable; with the
model's string timestamps the key never raises, so the except-branch that
would fall back to the original order is not taken), and re-adds each record
to the fresh `ChatHistory` by role; `agent` is mapped to `assistant` and a
record with any other role is skipped by the loop. -/
def update_chat_history (max_history_length : Nat) (messages : List MsgRecord) :
    List ChatMsg :=
  let messages_to_add :=
    (pruneKeep MsgRecord.role max_history_length messages).mergeSort
      (fun a b => decide (a.created_at ≤ b.created_at))
  messages_to_add.foldl (fun chat msg =>
    if msg.role == "user" then chat ++ [{ role := "user", content := msg.content }]
    else if msg.role == "agent" || msg.role == "assistant" then
      chat ++ [{ role := "assistant", content := msg.content }]
    else if msg.role == "system" then
      chat ++ [{ role := "system", content := msg.content }]
    else chat) []

/-- Model of `AbstractSemanticKernelAgent.process`: resets the tool-usage log and the
attachment buffer, prunes, appends the user message, and iterates the
framework's `invoke`.  The framework call is modelled by its outcome
`invoke : Except String (List String)` (the contents of the streamed response
messages, or the raised exception); the tool-usage records and attachments
accumulated by the tool wrappers during the call are likewise passed in.
There is no try/except around the invocation, so a framework exception
propagates to the caller (`Except.error`). -/
def process (max_history_length : Nat) (chat : List ChatMsg) (message : String)
    (invoke : Except String (List String)) (tool_usage : List ToolUsage)
    (attachments : List Attachment) (now message_id : String) :
    Except String (List ChatMsg × Message) :=
  let chat := prune_chat_history max_history_length chat
  let chat := chat ++ [{ role := "user", content := message }]
  match invoke with
  | Except.error e => Except.error e
  | Except.ok responses =>
    Except.ok (chat ++ responses.map (fun r => { role := "assistant", content := r }),
      { message_id := message_id, role := "assistant",
        content := String.intercalate "\n" responses,
        created_at := now, citations := [],
        metadata := [("tool_usage", MetaValue.toolUsage tool_usage)],
        attachments := attachments })

end SemanticKernelAgent

namespace LlamaIndexAgent

/-- Model of `AbstractLlamaIndexAgent.add_tool`: the override repeats the same guard
as the base class — register only when the name is absent, otherwise raise a
`ValueError` and leave `_tools` untouched (the live-backend registration is
outside the model). -/
def add_tool (tools : List (String × Tool)) (tool : Tool) :
    List (String × Tool) × Option String :=
  if (alGet tools tool.name).isNone then
    (alSet tools tool.name tool, none)
  else
    (tools, some ("Tool " ++ tool.name ++ " already exists in agent"))

/-- Model of `AbstractLlamaIndexAgent.update_chat_history`: prunes the existing
history, then appends every incoming record unconditionally (a canonical
`Message` is reduced to its role/content/created_at dict, a loose mapping is
appended unchanged; both are `MsgRecord` in the model). -/
def update_chat_history (max_history_length : Nat) (chat_history : List MsgRecord)
    (messages : List MsgRecord) : List MsgRecord :=
  prune_chat_history max_history_length chat_history ++ messages

/-- Model of `AbstractLlamaIndexAgent.process`: resets the tool log and attachment
buffer, prunes, appends the user message, and queries the framework inside a
try/except.  The `aquery` outcome is passed in as `Except String String`; on
success the response is appended to the history and wrapped in an assistant
`Message` carrying the tool-usage log, on exception a degraded but valid
`Message` is returned whose content explains the failure and whose metadata
carries the `error` field. -/
def process (max_history_length : Nat) (chat_history : List MsgRecord)
    (message : String) (aquery : Except String String) (tool_usage : List ToolUsage)
    (attachments : List Attachment) (now message_id : String) :
    List MsgRecord × Message :=
  let chat_history := prune_chat_history max_history_length chat_history
  let chat_history := chat_history ++
    [{ role := "user", content := message, created_at := "" }]
  match aquery with
  | Except.ok response_text =>
    (chat_history ++ [{ role := "assistant", content := response_text, created_at := "" }],
     { message_id := message_id, role := "assistant", content := response_text,
       created_at := now, citations := [],
       metadata := [("tool_usage", MetaValue.toolUsage tool_usage)],
       attachments := attachments })
  | Except.error e =>
    (chat_history,
     { message_id := message_id, role := "assistant",
       content := "I encountered an error while processing your message: " ++ e,
       created_at := now, citations := [],
       metadata := [("error", MetaValue.str e)],
       attachments := [] })

end LlamaIndexAgent

/-- Three user-role records with no system message, used as a concrete
incoming batch for `update_chat_history`. -/
def exMsgs3u : List MsgRecord :=
  [{ role := "user", content := "m1", created_at := "1" },
   { role := "user", content := "m2", created_at := "2" },
   { role := "user", content := "m3", created_at := "3" }]

/-- A concrete toolkit holding one tool named `Add`. -/
def exToolkit : List (String × Tool) :=
  [("Add", { name := "Add", description := "adds", function := "add" })]

/-- A second tool that reuses the name `Add`. -/
def exToolAddClash : Tool :=
  { name := "Add", description := "other", function := "add2" }

/-- A tool with a fresh name. -/
def exToolMul : Tool :=
  { name := "Multiply", description := "multiplies", function := "mul" }


/-- A per-message record as placed into persisted storage.  The in-memory
save path writes a dict without any `attachments` key, while the append paths
and the file backend always write one; `none` models the absent key. -/
structure StoredMessage where
  message_id : String
  role : String
  content : String
  created_at : String
  citations : List Citation
  metadata : List (String × MetaValue)
  attachments : Option (List Attachment)
deriving DecidableEq, Repr

/-- The `Conversation` envelope handed to `save_conversation`; the live
`agent` object contributes only its `id`. -/
structure Conversation where
  conversation_id : String
  agent_id : String
  title : String
  created_at : String
  last_updated_at : String
  messages : List Message
  metadata : List (String × String)
deriving DecidableEq, Repr

/-- A stored conversation record: the dict kept by the in-memory store, and
equally the JSON document written by the file backend. -/
structure ConvRecord where
  conversation_id : String
  user_id : String
  agent_id : String
  title : String
  created_at : String
  last_updated_at : String
  messages : List StoredMessage
  metadata : List (String × String)
deriving DecidableEq, Repr

/-- A conversation record without its `messages` key: the file backend's
listing builds each item as `{k: data[k] for k in data if k != "messages"}`. -/
structure ConvMeta where
  conversation_id : String
  user_id : String
  agent_id : String
  title : String
  created_at : String
  last_updated_at : String
  metadata : List (String × String)
deriving DecidableEq, Repr

/-- Model of `conv.get(k)` on a stored conversation dict, for the exact-match filters
of `list_conversations`: the string-valued keys are retrievable; `messages`
and `metadata` hold non-string values, so comparing them with a string filter
value never succeeds, exactly as `conv.get(k) == v` in Python; an unknown key
yields `None`, which likewise never equals a string. -/
def conv_get (conv : ConvRecord) (k : String) : Option String :=
  if k == "conversation_id" then some conv.conversation_id
  else if k == "user_id" then some conv.user_id
  else if k == "agent_id" then some conv.agent_id
  else if k == "title" then some conv.title
  else if k == "created_at" then some conv.created_at
  else if k == "last_updated_at" then some conv.last_updated_at
  else none

/-- The multi-user in-memory store, indexed `[user_id][conversation_id]`. -/
abbrev Store := List (String × List (String × ConvRecord))

/-- The directory of the file backend: file name to parsed JSON document. -/
abbrev FileStore := List (String × ConvRecord)

namespace InMemory

/-- The message serialization inlined in
`InMemoryPersistenceStrategy.save_conversation`: the written dict carries
`message_id`, `role`, `content`, `created_at`, `citations` and `metadata` —
and no `attachments` key. -/
def save_message_dict (msg : Message) : StoredMessage :=
  { message_id := msg.message_id, role := msg.role, content := msg.content,
    created_at := msg.created_at, citations := msg.citations,
    metadata := msg.metadata, attachments := none }

/-- Pydantic `model_dump()` of a `Message`, the branch taken by
`InMemoryPersistenceStrategy.append_message` (`Message` is a pydantic v2
model, so `hasattr(message, "model_dump")` holds): every field is dumped,
including `attachments`. -/
def model_dump (msg : Message) : StoredMessage :=
  { message_id := msg.message_id, role := msg.role, content := msg.content,
    created_at := msg.created_at, citations := msg.citations,
    metadata := msg.metadata, attachments := some msg.attachments }

/-- Model of `InMemoryPersistenceStrategy.save_conversation`: initialize the user's
dict if absent, then store the serialized conversation under its id. -/
def save_conversation (store : Store) (conversation : Conversation)
    (user_id : String) : Store × Bool :=
  let store := if (alGet store user_id).isSome then store else alSet store user_id []
  let userStore := (alGet store user_id).getD []
  (alSet store user_id (alSet userStore conversation.conversation_id
    { conversation_id := conversation.conversation_id,
      user_id := user_id,
      agent_id := conversation.agent_id,
      title := conversation.title,
      created_at := conversation.created_at,
      last_updated_at := conversation.last_updated_at,
      messages := conversation.messages.map save_message_dict,
      metadata := conversation.metadata }), true)

/-- Model of `InMemoryPersistenceStrategy.load_conversation`: `None` when the user is
unknown, otherwise the user's dict looked up by conversation id. -/
def load_conversation (store : Store) (conversation_id user_id : String) :
    Option ConvRecord :=
  match alGet store user_id with
  | none => none
  | some userStore => alGet userStore conversation_id

/-- Model of `InMemoryPersistenceStrategy.delete_conversation`. -/
def delete_conversation (store : Store) (conversation_id user_id : String) :
    Store × Bool :=
  match alGet store user_id with
  | none => (store, false)
  | some userStore =>
    if (alGet userStore conversation_id).isSome then
      (alSet store user_id (alErase userStore conversation_id), true)
    else (store, false)

/-- Model of `InMemoryPersistenceStrategy.reset_conversation`: replace the stored dict
by one with the same metadata fields, an empty message list, and
`last_updated_at` set to `datetime.now().isoformat()`. -/
def reset_conversation (store : Store) (conversation_id user_id : String)
    (now : String) : Store × Bool :=
  match alGet store user_id with
  | none => (store, false)
  | some userStore =>
    match alGet userStore conversation_id with
    | none => (store, false)
    | some conversation =>
      (alSet store user_id (alSet userStore conversation_id
        { conversation_id := conversation.conversation_id,
          user_id := user_id,
          agent_id := conversation.agent_id,
          title := conversation.title,
          created_at := conversation.created_at,
          last_updated_at := now,
          messages := [],
          metadata := conversation.metadata }), true)

/-- Model of `InMemoryPersistenceStrategy.append_message`: fails when the user or the
conversation is unknown; otherwise appends the `model_dump` of the message to
the end of the stored list and bumps `last_updated_at`. -/
def append_message (store : Store) (conversation_id user_id : String)
    (message : Message) (now : String) : Store × Bool :=
  match alGet store user_id with
  | none => (store, false)
  | some userStore =>
    match alGet userStore conversation_id with
    | none => (store, false)
    | some conversation =>
      (alSet store user_id (alSet userStore conversation_id
        { conversation with
            messages := conversation.messages ++ [model_dump message],
            last_updated_at := now
        }), true)

/-- The result shape of the in-memory `list_conversations`: note the items
are the stored conversation dicts themselves, message bodies included. -/
structure ListResult where
  items : List ConvRecord
  continuation_token : Option Nat
  total_count : Nat
deriving DecidableEq, Repr

/-- Model of `InMemoryPersistenceStrategy.list_conversations`: the user's records are
filtered by exact match, counted, stably sorted by `last_updated_at`
descending (`sorted(..., reverse=True)` on the ISO strings), and sliced
`[start_index:end_index]`. -/
def list_conversations (store : Store) (user_id : String)
    (filters : List (String × String)) (page_size : Nat)
    (continuation_token : Option Nat) : ListResult :=
  match alGet store user_id with
  | none => { items := [], continuation_token := none, total_count := 0 }
  | some userStore =>
    let user_conversations := userStore.map Prod.snd
    let filtered_conversations := user_conversations.filter
      (fun conv => filters.all (fun kv => conv_get conv kv.1 == some kv.2))
    let total_count := filtered_conversations.length
    let sorted_conversations := filtered_conversations.mergeSort
      (fun a b => decide (b.last_updated_at ≤ a.last_updated_at))
    let start_index := continuation_token.getD 0
    let end_index := min (start_index + page_size) sorted_conversations.length
    let page_items := (sorted_conversations.take end_index).drop start_index
    let new_continuation_token :=
      if end_index < sorted_conversations.length then some end_index else none
    { items := page_items, continuation_token := new_continuation_token,
      total_count := total_count }

/-- Re-supplying each returned continuation token in turn: the list of pages
obtained by starting from `token` with enough `fuel`. -/
def collect_pages (store : Store) (user_id : String)
    (filters : List (String × String)) (page_size : Nat) :
    Nat → Option Nat → List (List ConvRecord)
  | 0, _ => []
  | fuel + 1, token =>
    let r := list_conversations store user_id filters page_size token
    r.items :: (match r.continuation_token with
      | none => []
      | some t => collect_pages store user_id filters page_size fuel (some t))

end InMemory

namespace JsonFile

/-- Model of `JsonFilePersistenceStrategy._get_filepath`, relative to `base_dir`. -/
def filename (user_id conversation_id : String) : String :=
  user_id ++ "_" ++ conversation_id ++ ".json"

/-- Model of `JsonFilePersistenceStrategy._serialize_message`: every field is written,
`attachments` included (the model's values are plain JSON data, so
`_serialize_for_json` is the identity on them and the error-placeholder
branches are not taken). -/
def serialize_message (msg : Message) : StoredMessage :=
  { message_id := msg.message_id, role := msg.role, content := msg.content,
    created_at := msg.created_at, citations := msg.citations,
    metadata := msg.metadata, attachments := some msg.attachments }

/-- Model of `JsonFilePersistenceStrategy.save_conversation`: write the serialized
document to `{user_id}_{conversation_id}.json`. -/
def save_conversation (fs : FileStore) (conversation : Conversation)
    (user_id : String) : FileStore × Bool :=
  (alSet fs (filename user_id conversation.conversation_id)
    { conversation_id := conversation.conversation_id,
      user_id := user_id,
      agent_id := conversation.agent_id,
      title := conversation.title,
      created_at := conversation.created_at,
      last_updated_at := conversation.last_updated_at,
      messages := conversation.messages.map serialize_message,
      metadata := conversation.metadata }, true)

/-- Model of `JsonFilePersistenceStrategy.load_conversation`: read the file derived
from `(user_id, conversation_id)`; `None` when it does not exist. -/
def load_conversation (fs : FileStore) (conversation_id user_id : String) :
    Option ConvRecord :=
  alGet fs (filename user_id conversation_id)

/-- Model of `JsonFilePersistenceStrategy.delete_conversation`. -/
def delete_conversation (fs : FileStore) (conversation_id user_id : String) :
    FileStore × Bool :=
  if (alGet fs (filename user_id conversation_id)).isSome then
    (alErase fs (filename user_id conversation_id), true)
  else (fs, false)

/-- Model of `JsonFilePersistenceStrategy.reset_conversation`: rewrite the document
with `messages = []` and a bumped `last_updated_at`. -/
def reset_conversation (fs : FileStore) (conversation_id user_id : String)
    (now : String) : FileStore × Bool :=
  match alGet fs (filename user_id conversation_id) with
  | none => (fs, false)
  | some data =>
    (alSet fs (filename user_id conversation_id)
      { data with messages := [], last_updated_at := now }, true)

/-- Model of `JsonFilePersistenceStrategy.append_message`: read the document, append
the serialized message, bump `last_updated_at`, write back. -/
def append_message (fs : FileStore) (conversation_id user_id : String)
    (message : Message) (now : String) : FileStore × Bool :=
  match alGet fs (filename user_id conversation_id) with
  | none => (fs, false)
  | some data =>
    (alSet fs (filename user_id conversation_id)
      { data with
          messages := data.messages ++ [serialize_message message],
          last_updated_at := now
      }, true)

/-- Whether a file name matches the listing glob `{user_id}_*.json`. -/
def glob_match (user_id name : String) : Bool :=
  name.startsWith (user_id ++ "_") && name.endsWith ".json"

/-- Dropping the `messages` key from a document, as the listing does. -/
def to_meta (data : ConvRecord) : ConvMeta :=
  { conversation_id := data.conversation_id, user_id := data.user_id,
    agent_id := data.agent_id, title := data.title,
    created_at := data.created_at, last_updated_at := data.last_updated_at,
    metadata := data.metadata }

/-- The result shape of the file-backend `list_conversations`: items carry no
message bodies. -/
structure JsonListResult where
  items : List ConvMeta
  continuation_token : Option Nat
  total_count : Nat
deriving DecidableEq, Repr

/-- Model of `JsonFilePersistenceStrategy.list_conversations`: the matching file
names are sorted descending (by name, not by `last_updated_at`), the page
slice is taken from the file list, and only then is each page file loaded and
checked against the filters — a non-matching file is skipped from the page;
`total_count` is the number of matching files regardless of the filters. -/
def list_conversations (fs : FileStore) (user_id : String)
    (filters : List (String × String)) (page_size : Nat)
    (continuation_token : Option Nat) : JsonListResult :=
  let files := ((fs.map Prod.fst).filter (glob_match user_id)).mergeSort
    (fun a b => decide (b ≤ a))
  let start_index := continuation_token.getD 0
  let end_index := min (start_index + page_size) files.length
  let page_files := (files.take end_index).drop start_index
  let items := page_files.filterMap (fun fp =>
    match alGet fs fp with
    | none => none
    | some data =>
      if filters.all (fun kv => conv_get data kv.1 == some kv.2) then
        some (to_meta data)
      else none)
  let new_continuation_token :=
    if end_index < files.length then some end_index else none
  { items := items, continuation_token := new_continuation_token,
    total_count := files.length }

end JsonFile


/-- A message without attachments. -/
def exMsg1 : Message :=
  { message_id := "m1", role := "user", content := "hello", created_at := "t1",
    citations := [], metadata := [], attachments := [] }

/-- A second message. -/
def exMsg2 : Message :=
  { message_id := "m2", role := "assistant", content := "hi", created_at := "t2",
    citations := [], metadata := [], attachments := [] }

/-- A third message. -/
def exMsg3 : Message :=
  { message_id := "m3", role := "user", content := "bye", created_at := "t3",
    citations := [], metadata := [], attachments := [] }

/-- A message carrying one attachment. -/
def exMsgAtt : Message :=
  { message_id := "ma", role := "user", content := "pic", created_at := "t4",
    citations := [], metadata := [],
    attachments := [{ tag := "image", payload := "img" }] }

/-- A fresh (empty-message) conversation. -/
def exConv : Conversation :=
  { conversation_id := "c1", agent_id := "ag", title := "T", created_at := "t0",
    last_updated_at := "t0", messages := [], metadata := [("user_id", "u")] }

/-- A conversation whose id contains an underscore, used to exhibit the file
backend's filename collision across users. -/
def exConvCross : Conversation :=
  { conversation_id := "b_c", agent_id := "ag", title := "T", created_at := "t0",
    last_updated_at := "t0", messages := [], metadata := [] }

/-- A conversation holding one message with an attachment. -/
def exConvAtt : Conversation :=
  { conversation_id := "c1", agent_id := "ag", title := "T", created_at := "t0",
    last_updated_at := "t0", messages := [exMsgAtt], metadata := [] }

/-- Stored conversation records with distinct update stamps, for pagination. -/
def exRecA : ConvRecord :=
  { conversation_id := "ca", user_id := "u", agent_id := "ag", title := "T",
    created_at := "t0", last_updated_at := "t1", messages := [], metadata := [] }

/-- Second stored record. -/
def exRecB : ConvRecord :=
  { conversation_id := "cb", user_id := "u", agent_id := "ag", title := "T",
    created_at := "t0", last_updated_at := "t2", messages := [], metadata := [] }

/-- Third stored record. -/
def exRecC : ConvRecord :=
  { conversation_id := "cc", user_id := "u", agent_id := "ag", title := "T",
    created_at := "t0", last_updated_at := "t3", messages := [], metadata := [] }

/-- An in-memory store holding three conversations for user `u`. -/
def exStore3 : Store := [("u", [("ca", exRecA), ("cb", exRecB), ("cc", exRecC)])]


/-- A stored fresh conversation record (no messages yet). -/
def exRecFresh : ConvRecord :=
  { conversation_id := "c1", user_id := "u", agent_id := "ag", title := "T",
    created_at := "t0", last_updated_at := "t0", messages := [],
    metadata := [("user_id", "u")] }

/-- An in-memory store holding the fresh conversation for user `u`. -/
def exStoreFresh : Store := [("u", [("c1", exRecFresh)])]

/-- A file store holding the fresh conversation document of user `u`. -/
def exFsFresh : FileStore := [("u_c1.json", exRecFresh)]


namespace InMemory

/-- The filtered conversation set of a user, before pagination: the values of
the user's dict, kept when every exact-match filter holds. -/
def filtered_user_conversations (userStore : List (String × ConvRecord))
    (filters : List (String × String)) : List ConvRecord :=
  (userStore.map Prod.snd).filter
    (fun conv => filters.all (fun kv => conv_get conv kv.1 == some kv.2))

/-- The filtered set stably sorted by `last_updated_at` descending, the order
in which `list_conversations` paginates. -/
def sorted_user_conversations (userStore : List (String × ConvRecord))
    (filters : List (String × String)) : List ConvRecord :=
  (filtered_user_conversations userStore filters).mergeSort
    (fun a b => decide (b.last_updated_at ≤ a.last_updated_at))

end InMemory

/-- The user dict of `exStore3`. -/
def exUserStore3 : List (String × ConvRecord) :=
  [("ca", exRecA), ("cb", exRecB), ("cc", exRecC)]

/-- A stored conversation record carrying one message body. -/
def exRecMsg : ConvRecord :=
  { conversation_id := "c1", user_id := "u", agent_id := "ag", title := "T",
    created_at := "t0", last_updated_at := "t1",
    messages := [{ message_id := "m1", role := "user", content := "hello",
                   created_at := "t1", citations := [], metadata := [],
                   attachments := none }],
    metadata := [] }

/-- An in-memory store holding `exRecMsg` for user `u`. -/
def exStoreMsg : Store := [("u", [("c1", exRecMsg)])]

theorem alGet_alSet_self {α : Type} (l : List (String × α)) (k : String) (v : α) :
    alGet (alSet l k v) k = some v := by
  induction l with
  | nil => simp [alGet, alSet]
  | cons hd tl ih =>
    by_cases h : hd.1 = k
    · simp [alGet, alSet, h]
    · simp only [alSet, alGet]
      rw [if_neg (by simpa using h)]
      simpa [alGet, h] using ih

theorem alGet_alSet_ne {α : Type} (l : List (String × α)) (k k₂ : String) (v : α)
    (h : k ≠ k₂) : alGet (alSet l k v) k₂ = alGet l k₂ := by
  induction l with
  | nil => simp [alGet, alSet, h]
  | cons hd tl ih =>
    by_cases hh : hd.1 = k
    · simp [alGet, alSet, hh, h]
    · simp only [alSet, alGet]
      rw [if_neg (by simpa using hh)]
      by_cases h₂ : hd.1 = k₂ <;> simp [alGet, h₂, ih]

theorem alGet_alErase_ne {α : Type} (l : List (String × α)) (k k₂ : String)
    (h : k ≠ k₂) : alGet (alErase l k) k₂ = alGet l k₂ := by
  induction l with
  | nil => simp [alGet, alErase]
  | cons hd tl ih =>
    simp only [alErase, List.filter_cons] at ih ⊢
    by_cases hh : hd.1 = k
    · simp only [hh, beq_self_eq_true, Bool.not_true]
      rw [if_neg (by simp), ih]
      simp [alGet, hh, beq_iff_eq, h]
    · rw [if_pos (by simp [hh])]
      by_cases h₂ : hd.1 = k₂ <;> simp [alGet, h₂, ih]

theorem length_filter_add_length_filter_not {α : Type} (p : α → Bool) (l : List α) :
    (l.filter p).length + (l.filter (fun a => !(p a))).length = l.length := by
  induction l with
  | nil => rfl
  | cons hd tl ih =>
    by_cases h : p hd <;> simp [List.filter, h, ← ih] <;> omega

theorem pruneKeep_eq_drop {α : Type} (role : α → String) (bound : Nat) (hist : List α) :
    pruneKeep role bound hist =
      hist.filter (fun m => role m == "system") ++
        (hist.filter (fun m => !(role m == "system"))).drop
          ((hist.filter (fun m => !(role m == "system"))).length -
            (bound - (hist.filter (fun m => role m == "system")).length)) := by
  unfold pruneKeep
  by_cases h : 0 < bound - (hist.filter (fun m => role m == "system")).length
  · simp [h]
  · have h0 : bound - (hist.filter (fun m => role m == "system")).length = 0 := by omega
    simp [h0, List.drop_length]

theorem filter_sys_drop {α : Type} (role : α → String) (hist : List α) (j : Nat) :
    ((hist.filter (fun m => !(role m == "system"))).drop j).filter
      (fun m => role m == "system") = [] := by
  rw [List.filter_eq_nil_iff]
  intro a ha
  have hmem : a ∈ hist.filter (fun m => !(role m == "system")) := List.mem_of_mem_drop ha
  have := (List.mem_filter.mp hmem).2
  simpa using this

theorem filter_nonsys_drop {α : Type} (role : α → String) (hist : List α) (j : Nat) :
    ((hist.filter (fun m => !(role m == "system"))).drop j).filter
      (fun m => !(role m == "system")) =
      (hist.filter (fun m => !(role m == "system"))).drop j := by
  rw [List.filter_eq_self]
  intro a ha
  have h1 : a ∈ hist.filter (fun m => !(role m == "system")) := List.mem_of_mem_drop ha
  exact (List.mem_filter.mp h1).2

theorem filter_sys_pruneKeep {α : Type} (role : α → String) (bound : Nat) (hist : List α) :
    (pruneKeep role bound hist).filter (fun m => role m == "system") =
      hist.filter (fun m => role m == "system") := by
  rw [pruneKeep_eq_drop, List.filter_append, filter_sys_drop, List.append_nil]
  rw [List.filter_eq_self]
  intro a ha
  exact (List.mem_filter.mp ha).2

theorem filter_nonsys_pruneKeep {α : Type} (role : α → String) (bound : Nat) (hist : List α) :
    (pruneKeep role bound hist).filter (fun m => !(role m == "system")) =
      (hist.filter (fun m => !(role m == "system"))).drop
        ((hist.filter (fun m => !(role m == "system"))).length -
          (bound - (hist.filter (fun m => role m == "system")).length)) := by
  rw [pruneKeep_eq_drop, List.filter_append, filter_nonsys_drop]
  have : (hist.filter (fun m => role m == "system")).filter
      (fun m => !(role m == "system")) = [] := by
    rw [List.filter_eq_nil_iff]
    intro a ha
    have := List.of_mem_filter ha
    simpa using this
  rw [this, List.nil_append]

theorem length_pruneKeep {α : Type} (role : α → String) (bound : Nat) (hist : List α) :
    (pruneKeep role bound hist).length =
      (hist.filter (fun m => role m == "system")).length +
        min (bound - (hist.filter (fun m => role m == "system")).length)
          (hist.filter (fun m => !(role m == "system"))).length := by
  rw [pruneKeep_eq_drop, List.length_append, List.length_drop]
  omega

theorem length_pruneKeep_le {α : Type} (role : α → String) (bound : Nat) (hist : List α) :
    (pruneKeep role bound hist).length ≤ max bound (countSystem role hist) := by
  rw [length_pruneKeep]
  unfold countSystem
  omega

theorem pruneKeep_idem {α : Type} (role : α → String) (bound : Nat) (hist : List α) :
    pruneKeep role bound (pruneKeep role bound hist) = pruneKeep role bound hist := by
  have hsys := filter_sys_pruneKeep role bound hist
  have hnon := filter_nonsys_pruneKeep role bound hist
  rw [pruneKeep_eq_drop role bound (pruneKeep role bound hist), hsys, hnon]
  rw [pruneKeep_eq_drop role bound hist]
  congr 1
  have hlen : ((hist.filter (fun m => !(role m == "system"))).drop
      ((hist.filter (fun m => !(role m == "system"))).length -
        (bound - (hist.filter (fun m => role m == "system")).length))).length =
      min (bound - (hist.filter (fun m => role m == "system")).length)
        (hist.filter (fun m => !(role m == "system"))).length := by
    rw [List.length_drop]; omega
  rw [hlen]
  have : min (bound - (hist.filter (fun m => role m == "system")).length)
        (hist.filter (fun m => !(role m == "system"))).length -
        (bound - (hist.filter (fun m => role m == "system")).length) = 0 := by omega
  rw [this, List.drop_zero]

theorem pruneKeep_fixpoint {α : Type} (role : α → String) (bound : Nat) (l : List α)
    (hpart : l.filter (fun m => role m == "system") ++
      l.filter (fun m => !(role m == "system")) = l)
    (hlen : (l.filter (fun m => !(role m == "system"))).length ≤
      bound - (l.filter (fun m => role m == "system")).length) :
    pruneKeep role bound l = l := by
  rw [pruneKeep_eq_drop]
  have h0 : (l.filter (fun m => !(role m == "system"))).length -
      (bound - (l.filter (fun m => role m == "system")).length) = 0 := by omega
  rw [h0, List.drop_zero, hpart]

namespace SemanticKernelAgent

theorem rebuild_chat_eq_filter (msgs : List ChatMsg) :
    rebuild_chat msgs = msgs.filter knownRole := by
  induction msgs with
  | nil => rfl
  | cons hd tl ih =>
    obtain ⟨r, c⟩ := hd
    by_cases h1 : r = "system"
    · subst h1
      simpa [rebuild_chat, List.filterMap_cons, List.filter_cons, knownRole] using ih
    · by_cases h2 : r = "user"
      · subst h2
        simpa [rebuild_chat, List.filterMap_cons, List.filter_cons, knownRole] using ih
      · by_cases h3 : r = "assistant"
        · subst h3
          simpa [rebuild_chat, List.filterMap_cons, List.filter_cons, knownRole] using ih
        · simpa [rebuild_chat, List.filterMap_cons, List.filter_cons, knownRole,
            h1, h2, h3] using ih

end SemanticKernelAgent

namespace SemanticKernelAgent

theorem sk_prune_of_lt (b : Nat) (chat : List ChatMsg)
    (h : chat.length < b) : prune_chat_history b chat = chat := by
  unfold prune_chat_history
  rw [if_neg (Nat.not_le.mpr h)]

theorem sk_prune_eq (b : Nat) (chat : List ChatMsg) (hg : b ≤ chat.length) :
    prune_chat_history b chat =
      chat.filter (fun m => m.role == "system") ++
      ((chat.filter (fun m => !(m.role == "system"))).drop
        ((chat.filter (fun m => !(m.role == "system"))).length -
          (b - (chat.filter (fun m => m.role == "system")).length))).filter knownRole := by
  unfold prune_chat_history
  rw [if_pos hg, rebuild_chat_eq_filter, pruneKeep_eq_drop, List.filter_append]
  congr 1
  rw [List.filter_eq_self]
  intro a ha
  have h1 : (ChatMsg.role a == "system") = true := (List.mem_filter.mp ha).2
  simp [knownRole, h1]

theorem sk_rebuild_pruneKeep_partition (b : Nat) (S K : List ChatMsg)
    (hS : ∀ a ∈ S, (a.role == "system") = true)
    (hK : ∀ a ∈ K, (a.role == "system") = false)
    (hKknown : ∀ a ∈ K, knownRole a = true)
    (hlen : K.length ≤ b - S.length) :
    rebuild_chat (pruneKeep ChatMsg.role b (S ++ K)) = S ++ K := by
  have hsysP : (S ++ K).filter (fun m => ChatMsg.role m == "system") = S := by
    rw [List.filter_append]
    have h1 : S.filter (fun m => ChatMsg.role m == "system") = S :=
      List.filter_eq_self.mpr hS
    have h2 : K.filter (fun m => ChatMsg.role m == "system") = [] :=
      List.filter_eq_nil_iff.mpr (fun a ha => by simp [hK a ha])
    rw [h1, h2, List.append_nil]
  have hnonP : (S ++ K).filter (fun m => !(ChatMsg.role m == "system")) = K := by
    rw [List.filter_append]
    have h1 : S.filter (fun m => !(ChatMsg.role m == "system")) = [] :=
      List.filter_eq_nil_iff.mpr (fun a ha => by simp [hS a ha])
    have h2 : K.filter (fun m => !(ChatMsg.role m == "system")) = K :=
      List.filter_eq_self.mpr (fun a ha => by simp [hK a ha])
    rw [h1, h2, List.nil_append]
  have hfix : pruneKeep ChatMsg.role b (S ++ K) = S ++ K := by
    apply pruneKeep_fixpoint
    · rw [hsysP, hnonP]
    · rw [hsysP, hnonP]; exact hlen
  rw [hfix, rebuild_chat_eq_filter, List.filter_append]
  have h1 : S.filter knownRole = S :=
    List.filter_eq_self.mpr (fun a ha => by simp [knownRole, hS a ha])
  have h2 : K.filter knownRole = K := List.filter_eq_self.mpr hKknown
  rw [h1, h2]

theorem sk_prune_idem (b : Nat) (chat : List ChatMsg) :
    prune_chat_history b (prune_chat_history b chat) = prune_chat_history b chat := by
  by_cases hg : b ≤ chat.length
  · have hP := sk_prune_eq b chat hg
    by_cases hg2 : b ≤ (prune_chat_history b chat).length
    · rw [hP] at hg2 ⊢
      unfold prune_chat_history
      rw [if_pos hg2]
      apply sk_rebuild_pruneKeep_partition
      · intro a ha
        exact (List.mem_filter.mp ha).2
      · intro a ha
        have haD : a ∈ (chat.filter (fun m => !(m.role == "system"))).drop
            ((chat.filter (fun m => !(m.role == "system"))).length -
              (b - (chat.filter (fun m => m.role == "system")).length)) :=
          (List.mem_filter.mp ha).1
        have haN : a ∈ chat.filter (fun m => !(m.role == "system")) :=
          List.mem_of_mem_drop haD
        have h1 := (List.mem_filter.mp haN).2
        simpa using h1
      · intro a ha
        exact (List.mem_filter.mp ha).2
      · have h1 : (((chat.filter (fun m => !(m.role == "system"))).drop
            ((chat.filter (fun m => !(m.role == "system"))).length -
              (b - (chat.filter (fun m => m.role == "system")).length))).filter
                knownRole).length ≤
            ((chat.filter (fun m => !(m.role == "system"))).drop
              ((chat.filter (fun m => !(m.role == "system"))).length -
                (b - (chat.filter (fun m => m.role == "system")).length))).length :=
          List.length_filter_le _ _
        rw [List.length_drop] at h1
        omega
    · exact sk_prune_of_lt _ _ (Nat.lt_of_not_le hg2)
  · rw [sk_prune_of_lt _ _ (Nat.lt_of_not_le hg),
      sk_prune_of_lt _ _ (Nat.lt_of_not_le hg)]

end SemanticKernelAgent

namespace LlamaIndexAgent

theorem li_prune_of_lt (b : Nat) (hist : List MsgRecord)
    (h : hist.length < b) : prune_chat_history b hist = hist := by
  unfold prune_chat_history
  rw [if_neg (Nat.not_le.mpr h)]

theorem li_prune_idem (b : Nat) (hist : List MsgRecord) :
    prune_chat_history b (prune_chat_history b hist) = prune_chat_history b hist := by
  by_cases hg : b ≤ hist.length
  · have hP : prune_chat_history b hist = pruneKeep MsgRecord.role b hist := by
      unfold prune_chat_history
      rw [if_pos hg]
    rw [hP]
    by_cases hg2 : b ≤ (pruneKeep MsgRecord.role b hist).length
    · unfold prune_chat_history
      rw [if_pos hg2]
      exact pruneKeep_idem _ _ _
    · exact li_prune_of_lt _ _ (Nat.lt_of_not_le hg2)
  · rw [li_prune_of_lt _ _ (Nat.lt_of_not_le hg),
      li_prune_of_lt _ _ (Nat.lt_of_not_le hg)]

end LlamaIndexAgent

namespace SemanticKernelAgent

theorem filter_sys_filter_known_drop (chat : List ChatMsg) (j : Nat) :
    (((chat.filter (fun m => !(m.role == "system"))).drop j).filter knownRole).filter
      (fun m => m.role == "system") = [] := by
  rw [List.filter_eq_nil_iff]
  intro a ha
  have h1 : a ∈ (chat.filter (fun m => !(m.role == "system"))).drop j :=
    (List.mem_filter.mp ha).1
  have h2 := (List.mem_filter.mp (List.mem_of_mem_drop h1)).2
  simpa using h2

theorem sk_filter_sys_prune (b : Nat) (chat : List ChatMsg) :
    (prune_chat_history b chat).filter (fun m => m.role == "system") =
      chat.filter (fun m => m.role == "system") := by
  by_cases hg : b ≤ chat.length
  · rw [sk_prune_eq b chat hg, List.filter_append]
    have h1 : (chat.filter (fun m => m.role == "system")).filter
        (fun m => m.role == "system") = chat.filter (fun m => m.role == "system") :=
      List.filter_eq_self.mpr (fun a ha => (List.mem_filter.mp ha).2)
    rw [h1, filter_sys_filter_known_drop, List.append_nil]
  · rw [sk_prune_of_lt _ _ (Nat.lt_of_not_le hg)]

theorem sk_filter_nonsys_prune_sublist (b : Nat) (chat : List ChatMsg) :
    List.Sublist ((prune_chat_history b chat).filter (fun m => !(m.role == "system")))
      (chat.filter (fun m => !(m.role == "system"))) := by
  by_cases hg : b ≤ chat.length
  · rw [sk_prune_eq b chat hg, List.filter_append]
    have h1 : (chat.filter (fun m => m.role == "system")).filter
        (fun m => !(m.role == "system")) = [] :=
      List.filter_eq_nil_iff.mpr (fun a ha => by simp [(List.mem_filter.mp ha).2])
    have h2 : (((chat.filter (fun m => !(m.role == "system"))).drop
        ((chat.filter (fun m => !(m.role == "system"))).length -
          (b - (chat.filter (fun m => m.role == "system")).length))).filter
            knownRole).filter (fun m => !(m.role == "system")) =
        ((chat.filter (fun m => !(m.role == "system"))).drop
          ((chat.filter (fun m => !(m.role == "system"))).length -
            (b - (chat.filter (fun m => m.role == "system")).length))).filter
              knownRole := by
      rw [List.filter_eq_self]
      intro a ha
      have hm : a ∈ chat.filter (fun m => !(m.role == "system")) :=
        List.mem_of_mem_drop (List.mem_filter.mp ha).1
      exact (List.mem_filter.mp hm).2
    rw [h1, h2, List.nil_append]
    exact (List.filter_sublist _).trans (List.drop_sublist _ _)
  · rw [sk_prune_of_lt _ _ (Nat.lt_of_not_le hg)]

theorem sk_prune_length_le (b : Nat) (chat : List ChatMsg) :
    (prune_chat_history b chat).length ≤ max b (countSystem ChatMsg.role chat) := by
  by_cases hg : b ≤ chat.length
  · unfold prune_chat_history
    rw [if_pos hg, rebuild_chat_eq_filter]
    exact (List.length_filter_le _ _).trans (length_pruneKeep_le _ _ _)
  · rw [sk_prune_of_lt _ _ (Nat.lt_of_not_le hg)]
    omega

end SemanticKernelAgent

namespace LlamaIndexAgent

theorem li_filter_sys_prune (b : Nat) (hist : List MsgRecord) :
    (prune_chat_history b hist).filter (fun m => m.role == "system") =
      hist.filter (fun m => m.role == "system") := by
  by_cases hg : b ≤ hist.length
  · unfold prune_chat_history
    rw [if_pos hg]
    exact filter_sys_pruneKeep _ _ _
  · rw [li_prune_of_lt _ _ (Nat.lt_of_not_le hg)]

theorem li_filter_nonsys_prune_sublist (b : Nat) (hist : List MsgRecord) :
    List.Sublist ((prune_chat_history b hist).filter (fun m => !(m.role == "system")))
      (hist.filter (fun m => !(m.role == "system"))) := by
  by_cases hg : b ≤ hist.length
  · unfold prune_chat_history
    rw [if_pos hg, filter_nonsys_pruneKeep]
    exact List.drop_sublist _ _
  · rw [li_prune_of_lt _ _ (Nat.lt_of_not_le hg)]

theorem li_prune_length_le (b : Nat) (hist : List MsgRecord) :
    (prune_chat_history b hist).length ≤ max b (countSystem MsgRecord.role hist) := by
  by_cases hg : b ≤ hist.length
  · unfold prune_chat_history
    rw [if_pos hg]
    exact length_pruneKeep_le _ _ _
  · rw [li_prune_of_lt _ _ (Nat.lt_of_not_le hg)]
    omega

end LlamaIndexAgent

/-- C4: for every history with at least `max_history_length` entries, both
backends' pruners keep at most `max(bound, count_system(H))` entries; every
system message of `H` survives pruning (the system partition is preserved
exactly); and for any history shorter than the bound the pruner is a no-op. -/
theorem history_pruner_bound_system_noop (bound : Nat)
    (liHist : List MsgRecord) (skChat : List ChatMsg) :
    (bound ≤ liHist.length →
      (LlamaIndexAgent.prune_chat_history bound liHist).length ≤
        max bound (countSystem MsgRecord.role liHist)) ∧
    (LlamaIndexAgent.prune_chat_history bound liHist).filter
        (fun m => m.role == "system") =
      liHist.filter (fun m => m.role == "system") ∧
    (liHist.length < bound → LlamaIndexAgent.prune_chat_history bound liHist = liHist) ∧
    (bound ≤ skChat.length →
      (SemanticKernelAgent.prune_chat_history bound skChat).length ≤
        max bound (countSystem ChatMsg.role skChat)) ∧
    (SemanticKernelAgent.prune_chat_history bound skChat).filter
        (fun m => m.role == "system") =
      skChat.filter (fun m => m.role == "system") ∧
    (skChat.length < bound → SemanticKernelAgent.prune_chat_history bound skChat = skChat) :=
  ⟨fun _ => LlamaIndexAgent.li_prune_length_le bound liHist,
   LlamaIndexAgent.li_filter_sys_prune bound liHist,
   fun h => LlamaIndexAgent.li_prune_of_lt bound liHist h,
   fun _ => SemanticKernelAgent.sk_prune_length_le bound skChat,
   SemanticKernelAgent.sk_filter_sys_prune bound skChat,
   fun h => SemanticKernelAgent.sk_prune_of_lt bound skChat h⟩

/-- Witness for the C4 theorem at concrete histories: a three-entry history
against bound 2 (pruning fires) and against bound 5 (no-op). -/
theorem history_pruner_bound_system_noop_witness :
    ((2 : Nat) ≤ exLI3.length ∧
      (LlamaIndexAgent.prune_chat_history 2 exLI3).length ≤
        max 2 (countSystem MsgRecord.role exLI3)) ∧
    ((2 : Nat) ≤ exSK3.length ∧
      (SemanticKernelAgent.prune_chat_history 2 exSK3).length ≤
        max 2 (countSystem ChatMsg.role exSK3)) ∧
    (exLI3.length < 5 ∧ LlamaIndexAgent.prune_chat_history 5 exLI3 = exLI3) ∧
    (exSK3.length < 5 ∧ SemanticKernelAgent.prune_chat_history 5 exSK3 = exSK3) :=
  ⟨⟨by decide, (history_pruner_bound_system_noop 2 exLI3 exSK3).1 (by decide)⟩,
   ⟨by decide, (history_pruner_bound_system_noop 2 exLI3 exSK3).2.2.2.1 (by decide)⟩,
   ⟨by decide, (history_pruner_bound_system_noop 5 exLI3 exSK3).2.2.1 (by decide)⟩,
   ⟨by decide, (history_pruner_bound_system_noop 5 exLI3 exSK3).2.2.2.2.2 (by decide)⟩⟩

/-- C5: pruning is idempotent in both backends, keeps the system partition
exactly (same messages, same relative order), and keeps the non-system
partition as a subsequence (relative order preserved); the only cross-partition
reordering is placing system messages first. -/
theorem history_pruner_idem_order (bound : Nat)
    (liHist : List MsgRecord) (skChat : List ChatMsg) :
    LlamaIndexAgent.prune_chat_history bound
        (LlamaIndexAgent.prune_chat_history bound liHist) =
      LlamaIndexAgent.prune_chat_history bound liHist ∧
    SemanticKernelAgent.prune_chat_history bound
        (SemanticKernelAgent.prune_chat_history bound skChat) =
      SemanticKernelAgent.prune_chat_history bound skChat ∧
    (LlamaIndexAgent.prune_chat_history bound liHist).filter
        (fun m => m.role == "system") =
      liHist.filter (fun m => m.role == "system") ∧
    List.Sublist ((LlamaIndexAgent.prune_chat_history bound liHist).filter
        (fun m => !(m.role == "system")))
      (liHist.filter (fun m => !(m.role == "system"))) ∧
    (SemanticKernelAgent.prune_chat_history bound skChat).filter
        (fun m => m.role == "system") =
      skChat.filter (fun m => m.role == "system") ∧
    List.Sublist ((SemanticKernelAgent.prune_chat_history bound skChat).filter
        (fun m => !(m.role == "system")))
      (skChat.filter (fun m => !(m.role == "system"))) :=
  ⟨LlamaIndexAgent.li_prune_idem bound liHist,
   SemanticKernelAgent.sk_prune_idem bound skChat,
   LlamaIndexAgent.li_filter_sys_prune bound liHist,
   LlamaIndexAgent.li_filter_nonsys_prune_sublist bound liHist,
   SemanticKernelAgent.sk_filter_sys_prune bound skChat,
   SemanticKernelAgent.sk_filter_nonsys_prune_sublist bound skChat⟩

namespace SemanticKernelAgent

theorem length_foldl_add_le (l : List MsgRecord) (acc : List ChatMsg) :
    (l.foldl (fun chat msg =>
      if msg.role == "user" then chat ++ [{ role := "user", content := msg.content }]
      else if msg.role == "agent" || msg.role == "assistant" then
        chat ++ [{ role := "assistant", content := msg.content }]
      else if msg.role == "system" then
        chat ++ [{ role := "system", content := msg.content }]
      else chat) acc).length ≤ acc.length + l.length := by
  induction l generalizing acc with
  | nil => simp
  | cons hd tl ih =>
    simp only [List.foldl_cons, List.length_cons]
    refine le_trans (ih _) ?_
    have hstep : (if hd.role == "user" then
          acc ++ [{ role := "user", content := hd.content }]
        else if hd.role == "agent" || hd.role == "assistant" then
          acc ++ [{ role := "assistant", content := hd.content }]
        else if hd.role == "system" then
          acc ++ [{ role := "system", content := hd.content }]
        else acc).length ≤ acc.length + 1 := by
      repeat' split
      all_goals try simp only [List.length_append, List.length_singleton]
      all_goals omega
    omega

theorem sk_update_length_le (b : Nat) (messages : List MsgRecord) :
    (update_chat_history b messages).length ≤
      max b (countSystem MsgRecord.role messages) := by
  unfold update_chat_history
  refine le_trans (length_foldl_add_le _ _) ?_
  simp only [List.length_nil, Nat.zero_add]
  rw [List.length_mergeSort]
  exact length_pruneKeep_le _ _ _

end SemanticKernelAgent

/-- C3 (amended): after `update_chat_history(messages)` the semantic-kernel
backend's internal history never exceeds `max(max_history_length,
count_system(messages))` (the history is cleared first, so the merged records
are exactly the incoming ones).  The llama-index backend instead prunes only
the pre-merge history and then appends every incoming record unconditionally:
the pruned old part respects the bound, but the post-merge length is the
pruned length plus the full batch size, so the bound can be exceeded. -/
theorem update_chat_history_bound_amended (bound : Nat)
    (messages liHist : List MsgRecord) :
    (SemanticKernelAgent.update_chat_history bound messages).length ≤
      max bound (countSystem MsgRecord.role messages) ∧
    LlamaIndexAgent.update_chat_history bound liHist messages =
      LlamaIndexAgent.prune_chat_history bound liHist ++ messages ∧
    (LlamaIndexAgent.prune_chat_history bound liHist).length ≤
      max bound (countSystem MsgRecord.role liHist) ∧
    (LlamaIndexAgent.update_chat_history bound liHist messages).length =
      (LlamaIndexAgent.prune_chat_history bound liHist).length + messages.length :=
  ⟨SemanticKernelAgent.sk_update_length_le bound messages,
   rfl,
   LlamaIndexAgent.li_prune_length_le bound liHist,
   by unfold LlamaIndexAgent.update_chat_history; rw [List.length_append]⟩

/-- C3 counterexample: merging three non-system records into an empty
llama-index history with `max_history_length = 2` leaves a post-merge history
of length 3, exceeding `max(bound, count_system)` — the History Pruner bound
does not hold on the post-merge state. -/
theorem update_chat_history_bound_counterexample :
    ¬ ((LlamaIndexAgent.update_chat_history 2 [] exMsgs3u).length ≤
        max 2 (countSystem MsgRecord.role
          (LlamaIndexAgent.update_chat_history 2 [] exMsgs3u))) := by
  decide

/-- C2 (amended): on a framework exception the llama-index backend's
`process` is fail-soft — it returns an assistant `Message` whose content
explains the failure and whose metadata carries the `error` field — while the
semantic-kernel backend's `process` has no try/except and propagates the
exception to the caller. -/
theorem process_fail_soft_amended (b : Nat) (skChat : List ChatMsg)
    (liHist : List MsgRecord) (msg e : String) (tu : List ToolUsage)
    (att : List Attachment) (now mid : String) :
    (LlamaIndexAgent.process b liHist msg (Except.error e) tu att now mid).2.content =
      "I encountered an error while processing your message: " ++ e ∧
    alGet (LlamaIndexAgent.process b liHist msg (Except.error e) tu att now mid).2.metadata
      "error" = some (MetaValue.str e) ∧
    (LlamaIndexAgent.process b liHist msg (Except.error e) tu att now mid).2.role =
      "assistant" ∧
    SemanticKernelAgent.process b skChat msg (Except.error e) tu att now mid =
      Except.error e :=
  ⟨rfl, rfl, rfl, rfl⟩

/-- C2 counterexample: at a concrete input where the semantic-kernel
framework invocation raises, `process` does not return a degraded `Message`
at all — the exception propagates to the caller. -/
theorem process_fail_soft_counterexample :
    SemanticKernelAgent.process 20 [] "hi" (Except.error "boom") [] [] "t0" "m0" =
      Except.error "boom" := by
  rfl

/-- C9: in both the shared base implementation and the llama-index override,
`add_tool` on a name already present fails with a naming-conflict error and
leaves the toolkit unchanged (the registered tool is not overwritten); on a
fresh name it registers the tool under `tool.name`. -/
theorem add_tool_conflict_or_register (tools : List (String × Tool)) (t : Tool) :
    ((alGet tools t.name).isSome = true →
      AbstractAgent.add_tool tools t =
        (tools, some ("Tool " ++ t.name ++ " already exists in agent")) ∧
      LlamaIndexAgent.add_tool tools t =
        (tools, some ("Tool " ++ t.name ++ " already exists in agent"))) ∧
    (alGet tools t.name = none →
      AbstractAgent.add_tool tools t = (alSet tools t.name t, none) ∧
      alGet (AbstractAgent.add_tool tools t).1 t.name = some t ∧
      LlamaIndexAgent.add_tool tools t = (alSet tools t.name t, none) ∧
      alGet (LlamaIndexAgent.add_tool tools t).1 t.name = some t) := by
  constructor
  · intro h
    have hnone : ¬ ((alGet tools t.name).isNone = true) := by
      cases halt : alGet tools t.name
      · rw [halt] at h; simp at h
      · simp
    constructor
    · unfold AbstractAgent.add_tool
      rw [if_neg hnone]
    · unfold LlamaIndexAgent.add_tool
      rw [if_neg hnone]
  · intro h
    have hsome : (alGet tools t.name).isNone = true := by rw [h]; rfl
    have e1 : AbstractAgent.add_tool tools t = (alSet tools t.name t, none) := by
      unfold AbstractAgent.add_tool
      rw [if_pos hsome]
    have e2 : LlamaIndexAgent.add_tool tools t = (alSet tools t.name t, none) := by
      unfold LlamaIndexAgent.add_tool
      rw [if_pos hsome]
    refine ⟨e1, ?_, e2, ?_⟩
    · rw [e1]
      exact alGet_alSet_self tools t.name t
    · rw [e2]
      exact alGet_alSet_self tools t.name t

/-- Witness for the C9 theorem: a clash on the registered name `Add` fails
and leaves the toolkit untouched; the fresh name `Multiply` registers. -/
theorem add_tool_conflict_or_register_witness :
    ((alGet exToolkit exToolAddClash.name).isSome = true ∧
      AbstractAgent.add_tool exToolkit exToolAddClash =
        (exToolkit, some ("Tool " ++ exToolAddClash.name ++ " already exists in agent"))) ∧
    (alGet exToolkit exToolMul.name = none ∧
      AbstractAgent.add_tool exToolkit exToolMul =
        (alSet exToolkit exToolMul.name exToolMul, none)) :=
  ⟨⟨by decide, ((add_tool_conflict_or_register exToolkit exToolAddClash).1 (by decide)).1⟩,
   ⟨by decide, ((add_tool_conflict_or_register exToolkit exToolMul).2 (by decide)).1⟩⟩

theorem alGet_mem {α : Type} (l : List (String × α)) (k : String) (v : α)
    (h : alGet l k = some v) : (k, v) ∈ l := by
  induction l with
  | nil => simp [alGet] at h
  | cons hd tl ih =>
    obtain ⟨k₂, v₂⟩ := hd
    by_cases hh : k₂ = k
    · subst hh
      unfold alGet at h
      rw [if_pos (by simp)] at h
      injection h with h
      subst h
      exact List.mem_cons_self _ _
    · unfold alGet at h
      rw [if_neg (by simpa using hh)] at h
      exact List.mem_cons_of_mem _ (ih h)

theorem take_drop_chunk {α : Type} (S : List α) (i m : Nat) (h1 : i ≤ m)
    (h2 : m ≤ S.length) : (S.take m).drop i ++ S.drop m = S.drop i := by
  conv_rhs => rw [← List.take_append_drop m S]
  rw [List.drop_append_eq_append_drop]
  have hlen : (S.take m).length = m := by
    rw [List.length_take]
    omega
  rw [hlen]
  have h0 : i - m = 0 := by omega
  rw [h0, List.drop_zero]

namespace InMemory

theorem load_save_self (store : Store) (conversation : Conversation)
    (user_id : String) :
    load_conversation (save_conversation store conversation user_id).1
        conversation.conversation_id user_id =
      some { conversation_id := conversation.conversation_id,
             user_id := user_id,
             agent_id := conversation.agent_id,
             title := conversation.title,
             created_at := conversation.created_at,
             last_updated_at := conversation.last_updated_at,
             messages := conversation.messages.map save_message_dict,
             metadata := conversation.metadata } := by
  unfold load_conversation save_conversation
  simp [alGet_alSet_self]

theorem append_present (store : Store) (conversation_id user_id : String)
    (conversation : ConvRecord) (m : Message) (now : String)
    (h : load_conversation store conversation_id user_id = some conversation) :
    (append_message store conversation_id user_id m now).2 = true ∧
    load_conversation (append_message store conversation_id user_id m now).1
        conversation_id user_id =
      some { conversation with
               messages := conversation.messages ++ [model_dump m],
               last_updated_at := now
           } := by
  unfold load_conversation at h
  cases halt : alGet store user_id with
  | none => rw [halt] at h; exact absurd h (by simp)
  | some userStore =>
    rw [halt] at h
    dsimp only at h
    unfold append_message load_conversation
    rw [halt]
    dsimp only
    rw [h]
    simp [alGet_alSet_self]

theorem append_absent (store : Store) (conversation_id user_id : String)
    (m : Message) (now : String)
    (h : load_conversation store conversation_id user_id = none) :
    append_message store conversation_id user_id m now = (store, false) := by
  unfold load_conversation at h
  unfold append_message
  cases halt : alGet store user_id with
  | none => rfl
  | some userStore =>
    rw [halt] at h
    dsimp only at h
    dsimp only
    rw [h]

theorem reset_present (store : Store) (conversation_id user_id : String)
    (conversation : ConvRecord) (now : String)
    (h : load_conversation store conversation_id user_id = some conversation) :
    (reset_conversation store conversation_id user_id now).2 = true ∧
    load_conversation (reset_conversation store conversation_id user_id now).1
        conversation_id user_id =
      some { conversation_id := conversation.conversation_id,
             user_id := user_id,
             agent_id := conversation.agent_id,
             title := conversation.title,
             created_at := conversation.created_at,
             last_updated_at := now,
             messages := [],
             metadata := conversation.metadata } := by
  unfold load_conversation at h
  cases halt : alGet store user_id with
  | none => rw [halt] at h; exact absurd h (by simp)
  | some userStore =>
    rw [halt] at h
    dsimp only at h
    unfold reset_conversation load_conversation
    rw [halt]
    dsimp only
    rw [h]
    simp [alGet_alSet_self]

theorem reset_absent (store : Store) (conversation_id user_id : String)
    (now : String)
    (h : load_conversation store conversation_id user_id = none) :
    reset_conversation store conversation_id user_id now = (store, false) := by
  unfold load_conversation at h
  unfold reset_conversation
  cases halt : alGet store user_id with
  | none => rfl
  | some userStore =>
    rw [halt] at h
    dsimp only at h
    dsimp only
    rw [h]

end InMemory

namespace JsonFile

theorem json_append_present (fs : FileStore) (conversation_id user_id : String)
    (data : ConvRecord) (m : Message) (now : String)
    (h : load_conversation fs conversation_id user_id = some data) :
    (append_message fs conversation_id user_id m now).2 = true ∧
    load_conversation (append_message fs conversation_id user_id m now).1
        conversation_id user_id =
      some { data with
               messages := data.messages ++ [serialize_message m],
               last_updated_at := now
           } := by
  unfold load_conversation at h
  unfold append_message load_conversation
  rw [h]
  simp [alGet_alSet_self]

theorem json_append_absent (fs : FileStore) (conversation_id user_id : String)
    (m : Message) (now : String)
    (h : load_conversation fs conversation_id user_id = none) :
    append_message fs conversation_id user_id m now = (fs, false) := by
  unfold load_conversation at h
  unfold append_message
  rw [h]

theorem json_reset_present (fs : FileStore) (conversation_id user_id : String)
    (data : ConvRecord) (now : String)
    (h : load_conversation fs conversation_id user_id = some data) :
    (reset_conversation fs conversation_id user_id now).2 = true ∧
    load_conversation (reset_conversation fs conversation_id user_id now).1
        conversation_id user_id =
      some { data with messages := [], last_updated_at := now } := by
  unfold load_conversation at h
  unfold reset_conversation load_conversation
  rw [h]
  simp [alGet_alSet_self]

theorem json_reset_absent (fs : FileStore) (conversation_id user_id : String)
    (now : String)
    (h : load_conversation fs conversation_id user_id = none) :
    reset_conversation fs conversation_id user_id now = (fs, false) := by
  unfold load_conversation at h
  unfold reset_conversation
  rw [h]

end JsonFile

/-- C7: in both backends `append_message` adds exactly one serialized message
to the end of the stored sequence without rewriting the rest (the position in
the stored list is the message's sequence position in these two backends),
returns false and leaves the store unchanged when the conversation does not
exist for that user, and appending m1, m2, m3 to a fresh (empty-message)
conversation and then loading returns exactly those three messages in that
order. -/
theorem append_message_contract
    (store : Store) (fs : FileStore) (cid uid : String)
    (conversation data : ConvRecord) (m m1 m2 m3 : Message)
    (now now1 now2 now3 : String) :
    (InMemory.load_conversation store cid uid = some conversation →
      (InMemory.append_message store cid uid m now).2 = true ∧
      InMemory.load_conversation
          (InMemory.append_message store cid uid m now).1 cid uid =
        some { conversation with
                 messages := conversation.messages ++ [InMemory.model_dump m],
                 last_updated_at := now
             }) ∧
    (InMemory.load_conversation store cid uid = none →
      InMemory.append_message store cid uid m now = (store, false)) ∧
    (InMemory.load_conversation store cid uid = some conversation →
      conversation.messages = [] →
      (InMemory.load_conversation
          (InMemory.append_message
            (InMemory.append_message
              (InMemory.append_message store cid uid m1 now1).1
              cid uid m2 now2).1
            cid uid m3 now3).1 cid uid).map ConvRecord.messages =
        some [InMemory.model_dump m1, InMemory.model_dump m2,
          InMemory.model_dump m3]) ∧
    (JsonFile.load_conversation fs cid uid = some data →
      (JsonFile.append_message fs cid uid m now).2 = true ∧
      JsonFile.load_conversation
          (JsonFile.append_message fs cid uid m now).1 cid uid =
        some { data with
                 messages := data.messages ++ [JsonFile.serialize_message m],
                 last_updated_at := now
             }) ∧
    (JsonFile.load_conversation fs cid uid = none →
      JsonFile.append_message fs cid uid m now = (fs, false)) ∧
    (JsonFile.load_conversation fs cid uid = some data →
      data.messages = [] →
      (JsonFile.load_conversation
          (JsonFile.append_message
            (JsonFile.append_message
              (JsonFile.append_message fs cid uid m1 now1).1
              cid uid m2 now2).1
            cid uid m3 now3).1 cid uid).map ConvRecord.messages =
        some [JsonFile.serialize_message m1, JsonFile.serialize_message m2,
          JsonFile.serialize_message m3]) := by
  refine ⟨fun h => InMemory.append_present store cid uid conversation m now h,
    fun h => InMemory.append_absent store cid uid m now h,
    ?_,
    fun h => JsonFile.json_append_present fs cid uid data m now h,
    fun h => JsonFile.json_append_absent fs cid uid m now h,
    ?_⟩
  · intro h hempty
    have h1 := InMemory.append_present store cid uid conversation m1 now1 h
    have h2 := InMemory.append_present _ cid uid _ m2 now2 h1.2
    have h3 := InMemory.append_present _ cid uid _ m3 now3 h2.2
    rw [h3.2]
    simp [hempty]
  · intro h hempty
    have h1 := JsonFile.json_append_present fs cid uid data m1 now1 h
    have h2 := JsonFile.json_append_present _ cid uid _ m2 now2 h1.2
    have h3 := JsonFile.json_append_present _ cid uid _ m3 now3 h2.2
    rw [h3.2]
    simp [hempty]

/-- Witness for the C7 theorem: the fresh stored conversation accepts three
appends in both backends, and an unknown conversation id makes the append
fail. -/
theorem append_message_contract_witness :
    (InMemory.load_conversation exStoreFresh "c1" "u" = some exRecFresh ∧
      exRecFresh.messages = [] ∧
      (InMemory.load_conversation
          (InMemory.append_message
            (InMemory.append_message
              (InMemory.append_message exStoreFresh "c1" "u" exMsg1 "n1").1
              "c1" "u" exMsg2 "n2").1
            "c1" "u" exMsg3 "n3").1 "c1" "u").map ConvRecord.messages =
        some [InMemory.model_dump exMsg1, InMemory.model_dump exMsg2,
          InMemory.model_dump exMsg3]) ∧
    (InMemory.load_conversation exStoreFresh "zz" "u" = none ∧
      InMemory.append_message exStoreFresh "zz" "u" exMsg1 "n1" =
        (exStoreFresh, false)) ∧
    (JsonFile.load_conversation exFsFresh "c1" "u" = some exRecFresh ∧
      (JsonFile.load_conversation
          (JsonFile.append_message
            (JsonFile.append_message
              (JsonFile.append_message exFsFresh "c1" "u" exMsg1 "n1").1
              "c1" "u" exMsg2 "n2").1
            "c1" "u" exMsg3 "n3").1 "c1" "u").map ConvRecord.messages =
        some [JsonFile.serialize_message exMsg1, JsonFile.serialize_message exMsg2,
          JsonFile.serialize_message exMsg3]) ∧
    (JsonFile.load_conversation exFsFresh "zz" "u" = none ∧
      JsonFile.append_message exFsFresh "zz" "u" exMsg1 "n1" =
        (exFsFresh, false)) :=
  ⟨⟨by decide, by decide,
    (append_message_contract exStoreFresh exFsFresh "c1" "u" exRecFresh exRecFresh
      exMsg1 exMsg1 exMsg2 exMsg3 "n1" "n1" "n2" "n3").2.2.1 (by decide) (by decide)⟩,
   ⟨by decide,
    (append_message_contract exStoreFresh exFsFresh "zz" "u" exRecFresh exRecFresh
      exMsg1 exMsg1 exMsg2 exMsg3 "n1" "n1" "n2" "n3").2.1 (by decide)⟩,
   ⟨by decide,
    (append_message_contract exStoreFresh exFsFresh "c1" "u" exRecFresh exRecFresh
      exMsg1 exMsg1 exMsg2 exMsg3 "n1" "n1" "n2" "n3").2.2.2.2.2 (by decide)
      (by decide)⟩,
   ⟨by decide,
    (append_message_contract exStoreFresh exFsFresh "zz" "u" exRecFresh exRecFresh
      exMsg1 exMsg1 exMsg2 exMsg3 "n1" "n1" "n2" "n3").2.2.2.2.1 (by decide)⟩⟩

/-- C8: in both backends `reset_conversation` deletes all messages of the
stored conversation (a subsequent load returns an empty message list) while
keeping `conversation_id`, `title`, `created_at`, `agent_id` and `metadata`
unchanged and bumping only `last_updated_at` to now; when the conversation is
absent for that user it returns false and leaves the store unchanged. -/
theorem reset_conversation_contract
    (store : Store) (fs : FileStore) (cid uid : String)
    (conversation data : ConvRecord) (now : String) :
    (InMemory.load_conversation store cid uid = some conversation →
      (InMemory.reset_conversation store cid uid now).2 = true ∧
      InMemory.load_conversation
          (InMemory.reset_conversation store cid uid now).1 cid uid =
        some { conversation_id := conversation.conversation_id,
               user_id := uid,
               agent_id := conversation.agent_id,
               title := conversation.title,
               created_at := conversation.created_at,
               last_updated_at := now,
               messages := [],
               metadata := conversation.metadata }) ∧
    (InMemory.load_conversation store cid uid = none →
      InMemory.reset_conversation store cid uid now = (store, false)) ∧
    (JsonFile.load_conversation fs cid uid = some data →
      (JsonFile.reset_conversation fs cid uid now).2 = true ∧
      JsonFile.load_conversation
          (JsonFile.reset_conversation fs cid uid now).1 cid uid =
        some { data with messages := [], last_updated_at := now }) ∧
    (JsonFile.load_conversation fs cid uid = none →
      JsonFile.reset_conversation fs cid uid now = (fs, false)) :=
  ⟨fun h => InMemory.reset_present store cid uid conversation now h,
   fun h => InMemory.reset_absent store cid uid now h,
   fun h => JsonFile.json_reset_present fs cid uid data now h,
   fun h => JsonFile.json_reset_absent fs cid uid now h⟩

/-- Witness for the C8 theorem on the fresh stored conversation and on an
unknown conversation id, in both backends. -/
theorem reset_conversation_contract_witness :
    (InMemory.load_conversation exStoreFresh "c1" "u" = some exRecFresh ∧
      (InMemory.reset_conversation exStoreFresh "c1" "u" "n9").2 = true) ∧
    (InMemory.load_conversation exStoreFresh "zz" "u" = none ∧
      InMemory.reset_conversation exStoreFresh "zz" "u" "n9" =
        (exStoreFresh, false)) ∧
    (JsonFile.load_conversation exFsFresh "c1" "u" = some exRecFresh ∧
      (JsonFile.reset_conversation exFsFresh "c1" "u" "n9").2 = true) ∧
    (JsonFile.load_conversation exFsFresh "zz" "u" = none ∧
      JsonFile.reset_conversation exFsFresh "zz" "u" "n9" = (exFsFresh, false)) :=
  ⟨⟨by decide,
    ((reset_conversation_contract exStoreFresh exFsFresh "c1" "u" exRecFresh
      exRecFresh "n9").1 (by decide)).1⟩,
   ⟨by decide,
    (reset_conversation_contract exStoreFresh exFsFresh "zz" "u" exRecFresh
      exRecFresh "n9").2.1 (by decide)⟩,
   ⟨by decide,
    ((reset_conversation_contract exStoreFresh exFsFresh "c1" "u" exRecFresh
      exRecFresh "n9").2.2.1 (by decide)).1⟩,
   ⟨by decide,
    (reset_conversation_contract exStoreFresh exFsFresh "zz" "u" exRecFresh
      exRecFresh "n9").2.2.2 (by decide)⟩⟩

/-- C10: the in-memory save path writes per-message dicts with no
`attachments` key, so after a full save every message of the loaded
conversation has lost its attachment data — even though the in-memory append
path serializes the complete message (pydantic `model_dump`), so an appended
message's attachments survive exactly until the next full re-save. -/
theorem in_memory_save_loses_attachments
    (store : Store) (conversation : Conversation) (uid now : String) (m : Message) :
    ((InMemory.load_conversation
        (InMemory.save_conversation store conversation uid).1
        conversation.conversation_id uid).map ConvRecord.messages) =
      some (conversation.messages.map InMemory.save_message_dict) ∧
    (∀ msg : Message, (InMemory.save_message_dict msg).attachments = none) ∧
    (∀ msg : Message, (InMemory.model_dump msg).attachments = some msg.attachments) ∧
    ((InMemory.load_conversation
        (InMemory.append_message
          (InMemory.save_conversation store conversation uid).1
          conversation.conversation_id uid m now).1
        conversation.conversation_id uid).map ConvRecord.messages) =
      some (conversation.messages.map InMemory.save_message_dict ++
        [InMemory.model_dump m]) := by
  refine ⟨?_, fun _ => rfl, fun _ => rfl, ?_⟩
  · rw [InMemory.load_save_self]
    rfl
  · have h1 := InMemory.load_save_self store conversation uid
    have h2 := InMemory.append_present _ _ _ _ m now h1
    rw [h2.2]
    rfl

namespace JsonFile

theorem filename_ne {A B cid : String} (h : A ≠ B) :
    filename A cid ≠ filename B cid := by
  intro he
  apply h
  apply String.ext
  unfold filename at he
  have hd := congrArg String.data he
  simp only [String.data_append] at hd
  simp only [List.append_assoc] at hd
  exact List.append_cancel_right hd

theorem json_load_after_save_other (fs : FileStore) (conv : Conversation)
    (A B : String) (h : A ≠ B) :
    load_conversation (save_conversation fs conv A).1 conv.conversation_id B =
      load_conversation fs conv.conversation_id B := by
  unfold load_conversation save_conversation
  exact alGet_alSet_ne _ _ _ _ (filename_ne h)

theorem json_save_preserves_other (fs : FileStore) (conv : Conversation)
    (A B : String) (h : A ≠ B) :
    alGet (save_conversation fs conv B).1 (filename A conv.conversation_id) =
      alGet fs (filename A conv.conversation_id) := by
  unfold save_conversation
  exact alGet_alSet_ne _ _ _ _ (filename_ne (Ne.symm h))

theorem json_delete_preserves_other (fs : FileStore) (cid A B : String)
    (h : A ≠ B) :
    alGet (delete_conversation fs cid B).1 (filename A cid) =
      alGet fs (filename A cid) := by
  unfold delete_conversation
  by_cases hc : (alGet fs (filename B cid)).isSome = true
  · rw [if_pos hc]
    exact alGet_alErase_ne _ _ _ (filename_ne (Ne.symm h))
  · rw [if_neg hc]

theorem json_reset_preserves_other (fs : FileStore) (cid A B now : String)
    (h : A ≠ B) :
    alGet (reset_conversation fs cid B now).1 (filename A cid) =
      alGet fs (filename A cid) := by
  unfold reset_conversation
  cases halt : alGet fs (filename B cid) with
  | none => rfl
  | some data =>
    dsimp only
    exact alGet_alSet_ne _ _ _ _ (filename_ne (Ne.symm h))

theorem json_append_preserves_other (fs : FileStore) (cid A B : String)
    (m : Message) (now : String) (h : A ≠ B) :
    alGet (append_message fs cid B m now).1 (filename A cid) =
      alGet fs (filename A cid) := by
  unfold append_message
  cases halt : alGet fs (filename B cid) with
  | none => rfl
  | some data =>
    dsimp only
    exact alGet_alSet_ne _ _ _ _ (filename_ne (Ne.symm h))

theorem list_items_sound (fs : FileStore) (uid : String)
    (filters : List (String × String)) (k : Nat) (tok : Option Nat) :
    ∀ item ∈ (list_conversations fs uid filters k tok).items,
      ∃ name data, (name, data) ∈ fs ∧ glob_match uid name = true ∧
        item = to_meta data := by
  intro item hitem
  simp only [list_conversations] at hitem
  rw [List.mem_filterMap] at hitem
  obtain ⟨fp, hfp, hfeq⟩ := hitem
  have hfiles := List.mem_of_mem_take (List.mem_of_mem_drop hfp)
  have hfil : fp ∈ (fs.map Prod.fst).filter (glob_match uid) :=
    List.mem_mergeSort.mp hfiles
  have hglob : glob_match uid fp = true := (List.mem_filter.mp hfil).2
  cases halt : alGet fs fp with
  | none =>
    rw [halt] at hfeq
    exact absurd hfeq (by simp)
  | some data =>
    rw [halt] at hfeq
    dsimp only at hfeq
    by_cases hmatch : (filters.all fun kv => conv_get data kv.1 == some kv.2) = true
    · rw [if_pos hmatch] at hfeq
      injection hfeq with hfeq
      exact ⟨fp, data, alGet_mem fs fp data halt, hglob, hfeq.symm⟩
    · rw [if_neg hmatch] at hfeq
      exact absurd hfeq (by simp)

end JsonFile

namespace InMemory

theorem load_after_save_other (store : Store) (conv : Conversation)
    (cid A B : String) (h : A ≠ B) :
    load_conversation (save_conversation store conv A).1 cid B =
      load_conversation store cid B := by
  simp only [save_conversation, load_conversation]
  by_cases hA : (alGet store A).isSome = true
  · rw [if_pos hA, alGet_alSet_ne _ A B _ h]
  · rw [if_neg hA, alGet_alSet_ne _ A B _ h, alGet_alSet_ne _ A B _ h]

theorem save_preserves_other (store : Store) (conv : Conversation)
    (A B : String) (h : A ≠ B) :
    alGet (save_conversation store conv B).1 A = alGet store A := by
  simp only [save_conversation]
  by_cases hB : (alGet store B).isSome = true
  · rw [if_pos hB, alGet_alSet_ne _ B A _ (Ne.symm h)]
  · rw [if_neg hB, alGet_alSet_ne _ B A _ (Ne.symm h),
      alGet_alSet_ne _ B A _ (Ne.symm h)]

theorem delete_preserves_other (store : Store) (cid A B : String) (h : A ≠ B) :
    alGet (delete_conversation store cid B).1 A = alGet store A := by
  unfold delete_conversation
  cases halt : alGet store B with
  | none => rfl
  | some us =>
    dsimp only
    by_cases hc : (alGet us cid).isSome = true
    · rw [if_pos hc]
      exact alGet_alSet_ne _ B A _ (Ne.symm h)
    · rw [if_neg hc]

theorem reset_preserves_other (store : Store) (cid A B now : String)
    (h : A ≠ B) :
    alGet (reset_conversation store cid B now).1 A = alGet store A := by
  unfold reset_conversation
  cases halt : alGet store B with
  | none => rfl
  | some us =>
    dsimp only
    cases h2 : alGet us cid with
    | none => rfl
    | some c =>
      dsimp only
      exact alGet_alSet_ne _ B A _ (Ne.symm h)

theorem append_preserves_other (store : Store) (cid A B : String)
    (m : Message) (now : String) (h : A ≠ B) :
    alGet (append_message store cid B m now).1 A = alGet store A := by
  unfold append_message
  cases halt : alGet store B with
  | none => rfl
  | some us =>
    dsimp only
    cases h2 : alGet us cid with
    | none => rfl
    | some c =>
      dsimp only
      exact alGet_alSet_ne _ B A _ (Ne.symm h)

end InMemory

/-- C6 (amended): the in-memory backend enforces full per-user isolation —
saving under A leaves user B's view of any conversation id unchanged (absent
in particular when B had nothing stored there), and save, delete, reset and
append invoked with user B never touch user A's sub-store.  The file backend
guarantees the same for the id-keyed operations at the same conversation_id
(distinct users yield distinct file names for the same id); its listing is a
file-name prefix scan — every item returned to user B comes from a stored
file whose name matches `B_*.json` — which can include another user A's file
when A's id extends B's id past an underscore. -/
theorem user_isolation_amended
    (store : Store) (fs : FileStore) (conv : Conversation) (cid A B : String)
    (m : Message) (now : String) (filters : List (String × String)) (k : Nat)
    (tok : Option Nat) (h : A ≠ B) :
    InMemory.load_conversation (InMemory.save_conversation store conv A).1 cid B =
      InMemory.load_conversation store cid B ∧
    alGet (InMemory.save_conversation store conv B).1 A = alGet store A ∧
    alGet (InMemory.delete_conversation store cid B).1 A = alGet store A ∧
    alGet (InMemory.reset_conversation store cid B now).1 A = alGet store A ∧
    alGet (InMemory.append_message store cid B m now).1 A = alGet store A ∧
    JsonFile.load_conversation (JsonFile.save_conversation fs conv A).1
        conv.conversation_id B =
      JsonFile.load_conversation fs conv.conversation_id B ∧
    alGet (JsonFile.save_conversation fs conv B).1
        (JsonFile.filename A conv.conversation_id) =
      alGet fs (JsonFile.filename A conv.conversation_id) ∧
    alGet (JsonFile.delete_conversation fs cid B).1 (JsonFile.filename A cid) =
      alGet fs (JsonFile.filename A cid) ∧
    alGet (JsonFile.reset_conversation fs cid B now).1 (JsonFile.filename A cid) =
      alGet fs (JsonFile.filename A cid) ∧
    alGet (JsonFile.append_message fs cid B m now).1 (JsonFile.filename A cid) =
      alGet fs (JsonFile.filename A cid) ∧
    (∀ item ∈ (JsonFile.list_conversations fs B filters k tok).items,
      ∃ name data, (name, data) ∈ fs ∧ JsonFile.glob_match B name = true ∧
        item = JsonFile.to_meta data) :=
  ⟨InMemory.load_after_save_other store conv cid A B h,
   InMemory.save_preserves_other store conv A B h,
   InMemory.delete_preserves_other store cid A B h,
   InMemory.reset_preserves_other store cid A B now h,
   InMemory.append_preserves_other store cid A B m now h,
   JsonFile.json_load_after_save_other fs conv A B h,
   JsonFile.json_save_preserves_other fs conv A B h,
   JsonFile.json_delete_preserves_other fs cid A B h,
   JsonFile.json_reset_preserves_other fs cid A B now h,
   JsonFile.json_append_preserves_other fs cid A B m now h,
   JsonFile.list_items_sound fs B filters k tok⟩

/-- Witness for the C6 theorem at distinct concrete users. -/
theorem user_isolation_amended_witness :
    ("a" : String) ≠ "b" ∧
    InMemory.load_conversation
        (InMemory.save_conversation exStoreFresh exConv "a").1 "c1" "b" =
      InMemory.load_conversation exStoreFresh "c1" "b" :=
  ⟨by decide,
   (user_isolation_amended exStoreFresh exFsFresh exConv "c1" "a" "b" exMsg1
     "n1" [] 50 none (by decide)).1⟩

/-- C6 counterexample: in the file backend, user `a` saving conversation
`b_c` writes the file `a_b_c.json`, and user `a_b` loading conversation `c`
reads that very file — an operation invoked with a different user returns the
conversation stored under user `a`. -/
theorem user_isolation_counterexample :
    JsonFile.load_conversation
        (JsonFile.save_conversation [] exConvCross "a").1 "c" "a_b" =
      some { conversation_id := "b_c", user_id := "a", agent_id := "ag",
             title := "T", created_at := "t0", last_updated_at := "t0",
             messages := [], metadata := [] } ∧
    ("a_b" : String) ≠ "a" := by
  constructor
  · decide
  · decide

namespace InMemory

theorem list_conversations_eq (store : Store) (uid : String)
    (filters : List (String × String)) (k : Nat) (token : Option Nat)
    (userStore : List (String × ConvRecord))
    (halt : alGet store uid = some userStore) :
    list_conversations store uid filters k token =
      { items := ((sorted_user_conversations userStore filters).take
            (min (token.getD 0 + k)
              (sorted_user_conversations userStore filters).length)).drop
          (token.getD 0),
        continuation_token :=
          if min (token.getD 0 + k)
              (sorted_user_conversations userStore filters).length <
              (sorted_user_conversations userStore filters).length then
            some (min (token.getD 0 + k)
              (sorted_user_conversations userStore filters).length)
          else none,
        total_count := (filtered_user_conversations userStore filters).length } := by
  unfold list_conversations sorted_user_conversations filtered_user_conversations
  rw [halt]

theorem collect_pages_none (store : Store) (uid : String)
    (filters : List (String × String)) (k fuel : Nat) :
    collect_pages store uid filters k fuel none =
      collect_pages store uid filters k fuel (some 0) := by
  cases fuel with
  | zero => rfl
  | succ f => rfl

theorem collect_pages_go (store : Store) (uid : String)
    (filters : List (String × String)) (k : Nat) (hk : 0 < k)
    (userStore : List (String × ConvRecord))
    (halt : alGet store uid = some userStore) :
    ∀ (fuel i : Nat),
      i < (sorted_user_conversations userStore filters).length →
      (sorted_user_conversations userStore filters).length - i ≤ fuel * k →
      ((collect_pages store uid filters k fuel (some i)).flatten =
          (sorted_user_conversations userStore filters).drop i ∧
        (collect_pages store uid filters k fuel (some i)).length =
          ((sorted_user_conversations userStore filters).length - i + k - 1) / k) := by
  intro fuel
  induction fuel with
  | zero =>
    intro i hi hle
    exfalso
    simp only [Nat.zero_mul, Nat.le_zero] at hle
    omega
  | succ f ih =>
    intro i hi hle
    rw [Nat.succ_mul] at hle
    simp only [collect_pages]
    rw [list_conversations_eq store uid filters k (some i) userStore halt]
    simp only [Option.getD_some]
    by_cases hc : i + k < (sorted_user_conversations userStore filters).length
    · have hmin : min (i + k) (sorted_user_conversations userStore filters).length
          = i + k := Nat.min_eq_left (Nat.le_of_lt hc)
      rw [hmin, if_pos hc]
      obtain ⟨ihj, ihl⟩ := ih (i + k) hc (by omega)
      constructor
      · rw [List.flatten_cons, ihj]
        exact take_drop_chunk _ i (i + k) (by omega) (Nat.le_of_lt hc)
      · rw [List.length_cons, ihl]
        have harg : (sorted_user_conversations userStore filters).length - i + k - 1 =
            ((sorted_user_conversations userStore filters).length - (i + k) + k - 1)
              + k := by omega
        rw [harg, Nat.add_div_right _ hk]
    · have hmin : min (i + k) (sorted_user_conversations userStore filters).length
          = (sorted_user_conversations userStore filters).length :=
        Nat.min_eq_right (Nat.not_lt.mp hc)
      rw [hmin, if_neg (lt_irrefl _)]
      constructor
      · simp [List.take_length]
      · rw [List.length_cons, List.length_nil]
        have hdiv : ((sorted_user_conversations userStore filters).length - i + k - 1)
            / k = 1 := by
          apply Nat.div_eq_of_lt_le
          · simp only [Nat.one_mul]
            omega
          · omega
        omega

end InMemory

/-- C1 (amended): for the in-memory backend with a positive page size,
repeatedly re-supplying the returned continuation token enumerates exactly
ceil(n/k) pages whose concatenation is the filtered set stably sorted by
`last_updated_at` descending — no conversation_id duplicated or omitted — and
`total_count` equals the full filtered set size on every page; however the
items are the stored conversation dicts themselves, message bodies included.
The file backend returns metadata-only items (each item is a stored document
with its `messages` key dropped, drawn from the user's `{user}_*.json`
files), but it orders and counts by file name, not by `last_updated_at`. -/
theorem list_conversations_amended
    (store : Store) (uid : String) (filters : List (String × String))
    (k fuel : Nat) (userStore : List (String × ConvRecord))
    (hk : 0 < k)
    (halt : alGet store uid = some userStore)
    (hn : 0 < (InMemory.filtered_user_conversations userStore filters).length)
    (hfuel : (InMemory.filtered_user_conversations userStore filters).length ≤
      fuel * k) :
    (InMemory.collect_pages store uid filters k fuel none).flatten =
      InMemory.sorted_user_conversations userStore filters ∧
    (InMemory.collect_pages store uid filters k fuel none).length =
      ((InMemory.filtered_user_conversations userStore filters).length + k - 1) / k ∧
    List.Perm
      ((InMemory.collect_pages store uid filters k fuel none).flatten.map
        ConvRecord.conversation_id)
      ((InMemory.filtered_user_conversations userStore filters).map
        ConvRecord.conversation_id) ∧
    (((userStore.map Prod.snd).map ConvRecord.conversation_id).Nodup →
      ((InMemory.collect_pages store uid filters k fuel none).flatten.map
        ConvRecord.conversation_id).Nodup) ∧
    List.Pairwise (fun a b => b.last_updated_at ≤ a.last_updated_at)
      ((InMemory.collect_pages store uid filters k fuel none).flatten) ∧
    (∀ token, (InMemory.list_conversations store uid filters k token).total_count =
      (InMemory.filtered_user_conversations userStore filters).length) ∧
    (∀ (fs : FileStore) (uid₂ : String) (filters₂ : List (String × String))
        (k₂ : Nat) (tok : Option Nat),
      ∀ item ∈ (JsonFile.list_conversations fs uid₂ filters₂ k₂ tok).items,
        ∃ name data, (name, data) ∈ fs ∧ JsonFile.glob_match uid₂ name = true ∧
          item = JsonFile.to_meta data) := by
  have hlen : (InMemory.sorted_user_conversations userStore filters).length =
      (InMemory.filtered_user_conversations userStore filters).length := by
    unfold InMemory.sorted_user_conversations
    exact List.length_mergeSort _
  have h0 : 0 < (InMemory.sorted_user_conversations userStore filters).length := by
    omega
  have hf : (InMemory.sorted_user_conversations userStore filters).length - 0 ≤
      fuel * k := by
    omega
  obtain ⟨hjoin, hcount⟩ :=
    InMemory.collect_pages_go store uid filters k hk userStore halt fuel 0 h0 hf
  rw [List.drop_zero] at hjoin
  rw [InMemory.collect_pages_none]
  have hperm : List.Perm (InMemory.sorted_user_conversations userStore filters)
      (InMemory.filtered_user_conversations userStore filters) := by
    unfold InMemory.sorted_user_conversations
    exact List.mergeSort_perm _ _
  refine ⟨hjoin, ?_, ?_, ?_, ?_, ?_, ?_⟩
  · rw [hcount]
    congr 1
    omega
  · rw [hjoin]
    exact hperm.map ConvRecord.conversation_id
  · intro hnd
    rw [hjoin]
    have h1 : List.Sublist (InMemory.filtered_user_conversations userStore filters)
        (userStore.map Prod.snd) := List.filter_sublist _
    have h2 : List.Sublist
        ((InMemory.filtered_user_conversations userStore filters).map
          ConvRecord.conversation_id)
        ((userStore.map Prod.snd).map ConvRecord.conversation_id) :=
      h1.map _
    have h3 := List.Nodup.sublist h2 hnd
    exact ((hperm.map ConvRecord.conversation_id).nodup_iff).mpr h3
  · rw [hjoin]
    unfold InMemory.sorted_user_conversations
    have hp := @List.sorted_mergeSort ConvRecord
      (fun a b : ConvRecord => decide (b.last_updated_at ≤ a.last_updated_at))
      (fun a b c hab hbc => by
        simp only [decide_eq_true_eq] at hab hbc ⊢
        exact le_trans hbc hab)
      (fun a b => by
        simp only [Bool.or_eq_true, decide_eq_true_eq]
        exact le_total _ _)
      (InMemory.filtered_user_conversations userStore filters)
    exact hp.imp (fun hab => of_decide_eq_true hab)
  · intro token
    rw [InMemory.list_conversations_eq store uid filters k token userStore halt]
  · intro fs uid₂ filters₂ k₂ tok
    exact JsonFile.list_items_sound fs uid₂ filters₂ k₂ tok

/-- Witness for the C1 theorem: three conversations for user `u` paged with
`page_size = 2` give ceil(3/2) = 2 pages that enumerate the sorted set. -/
theorem list_conversations_amended_witness :
    ((0 : Nat) < 2 ∧ alGet exStore3 "u" = some exUserStore3 ∧
      0 < (InMemory.filtered_user_conversations exUserStore3 []).length ∧
      (InMemory.filtered_user_conversations exUserStore3 []).length ≤ 2 * 2) ∧
    (InMemory.collect_pages exStore3 "u" [] 2 2 none).flatten =
      InMemory.sorted_user_conversations exUserStore3 [] ∧
    (InMemory.collect_pages exStore3 "u" [] 2 2 none).length =
      ((InMemory.filtered_user_conversations exUserStore3 []).length + 2 - 1) / 2 :=
  ⟨⟨by decide, by decide, by decide, by decide⟩,
   (list_conversations_amended exStore3 "u" [] 2 2 exUserStore3 (by decide)
     (by decide) (by decide) (by decide)).1,
   (list_conversations_amended exStore3 "u" [] 2 2 exUserStore3 (by decide)
     (by decide) (by decide) (by decide)).2.1⟩

/-- C1 counterexample: the in-memory listing returns the stored conversation
dicts themselves — the single item returned for this store still carries its
message body, refuting "conversation metadata only (no message bodies)". -/
theorem list_conversations_counterexample :
    (InMemory.list_conversations exStoreMsg "u" [] 50 none).items = [exRecMsg] ∧
    exRecMsg.messages ≠ [] := by
  constructor
  · rw [InMemory.list_conversations_eq exStoreMsg "u" [] 50 none
      [("c1", exRecMsg)] (by decide)]
    have hf : InMemory.filtered_user_conversations [("c1", exRecMsg)] [] =
        [exRecMsg] := by decide
    have hs : InMemory.sorted_user_conversations [("c1", exRecMsg)] [] =
        [exRecMsg] := by
      unfold InMemory.sorted_user_conversations
      rw [hf, List.mergeSort_singleton]
    dsimp only
    rw [hs]
    decide
  · decide
